import Mathlib

/-!
Verification of `idena_balance_timeline.py` (balance-timeline reconstruction
for an Idena address).  The Python source is shallowly embedded below:

* Python scalar values (as they arrive from JSON) are the inductive `PyVal`;
  dictionaries are association lists in insertion order (later bindings
  shadow earlier ones, matching `dict` overwrite semantics).
* `Decimal` values are represented by `ℚ`.  All decimal arithmetic performed
  by the program (sums and differences of values parsed from short decimal
  strings) is exact at the source's 28-digit context, so `ℚ` is faithful.
  The program stores decimals back into records as `str(...)` and re-parses
  them with `D`; that round-trip is the identity, so records carry `ℚ`
  directly.
* Python `float` values are represented by the exact decimal value of their
  shortest repr (the string `str(x)` the source feeds to `Decimal`); the
  feed's JSON contains only finite numbers, so non-finite floats are outside
  the model.
* Network effects are modelled by passing the sequence of attempt outcomes
  (or the fetched balance) as an explicit parameter.
-/

namespace IdenaTimeline

/-- A Python/JSON scalar or container value as handled by the script. -/
inductive PyVal where
  | null
  | bool (b : Bool)
  | int (n : Int)
  /-- a finite float, identified with the exact decimal value of its shortest repr -/
  | float (q : ℚ)
  | str (s : String)
  | list (xs : List PyVal)
  | obj (fields : List (String × PyVal))

/-- Python truthiness (`bool(x)`) for the values above. -/
def pyTruthy : PyVal → Bool
  | .null => false
  | .bool b => b
  | .int n => n != 0
  | .float q => q != 0
  | .str s => !s.isEmpty
  | .list xs => !xs.isEmpty
  | .obj fs => !fs.isEmpty

/-- `str.lower()` on one character (ASCII; the program only lowercases hex
addresses and dictionary keys, which are ASCII). -/
def lowerChar (c : Char) : Char :=
  if 'A' ≤ c ∧ c ≤ 'Z' then Char.ofNat (c.toNat + 32) else c

/-- `str.lower()` (ASCII). -/
def lowerStr (s : String) : String := ⟨s.data.map lowerChar⟩

/-- Exact-key dictionary lookup (`dct.get(k)`); with duplicate insertions the
last binding wins, as in a Python `dict`. -/
def lookupDict (d : List (String × PyVal)) (k : String) : Option PyVal :=
  ((d.filter (fun kv => kv.1 == k)).getLast?).map Prod.snd

/-- `get_ci(dct, *names)` (source lines 101–111): case-insensitive multi-alias
lookup.  The source builds `{k.lower(): k for k in dct}` (last key with a
given lowering wins) and returns the value under the first alias present. -/
def getCI (d : List (String × PyVal)) (names : List String) : Option PyVal :=
  names.findSome? fun n =>
    ((d.filter (fun kv => lowerStr kv.1 == lowerStr n)).getLast?).map Prod.snd

/-- `get_ci` applied to a value that may not be a dict (returns `None` then). -/
def getCIv (v : PyVal) (names : List String) : Option PyVal :=
  match v with
  | .obj fs => getCI fs names
  | _ => none

/-- `get_ci` returns `None` both for an absent key and for a stored `None`;
collapse an absent lookup result to the Python `None` value. -/
def valOrNull (v : Option PyVal) : PyVal := v.getD .null

/-- Decimal value of a digit string (most significant first). -/
def digitsVal (ds : List Char) : ℕ :=
  ds.foldl (fun a c => a * 10 + (c.toNat - 48)) 0

/-- Nonempty and all ASCII digits (`str.isdigit`, restricted to ASCII). -/
def isDigits (ds : List Char) : Bool :=
  !ds.isEmpty && ds.all Char.isDigit

/-- `str.strip()` on the character list (ASCII whitespace). -/
def stripChars (cs : List Char) : List Char :=
  ((cs.dropWhile Char.isWhitespace).reverse.dropWhile Char.isWhitespace).reverse

/-- Optional single leading sign; returns (isNegative, rest). -/
def splitSign (cs : List Char) : Bool × List Char :=
  if cs.head? = some '+' then (false, cs.tail)
  else if cs.head? = some '-' then (true, cs.tail)
  else (false, cs)

/-- `int(s)` on a string: surrounding whitespace, an optional sign, then a
nonempty digit run (underscore separators and non-ASCII digits are outside
the model).  `none` models the `ValueError`. -/
def parseIntChars (cs : List Char) : Option Int :=
  let cs := stripChars cs
  let (neg, ds) := splitSign cs
  if isDigits ds then some (if neg then -(digitsVal ds : Int) else (digitsVal ds : Int))
  else none

/-- The mantissa of a decimal numeric string: `digits [. digits]` or `. digits`. -/
def parseMantissa (cs : List Char) : Option ℚ :=
  let ip := cs.takeWhile (fun c => c != '.')
  match cs.dropWhile (fun c => c != '.') with
  | [] => if isDigits ip then some ((digitsVal ip : ℚ)) else none
  | _ :: fp =>
    if fp.contains '.' then none
    else if ip.isEmpty && fp.isEmpty then none
    else if ip.all Char.isDigit && fp.all Char.isDigit then
      some ((digitsVal ip : ℚ) + (digitsVal fp : ℚ) / 10 ^ fp.length)
    else none

/-- `Decimal(s)` for finite numeric strings after underscore removal:
optional sign, mantissa, optional exponent — exactly the stdlib's
numeric-string grammar restricted to ASCII.  `D` below performs the
underscore removal the stdlib applies first.  The special values
`NaN`/`Infinity` construct non-finite decimals outside this `ℚ` model; every
spelling of them contains the letter `n`/`N`, and the theorems that reason
about unparseable strings exclude such strings by hypothesis.  `none` models
`InvalidOperation`. -/
def parseDecChars (cs : List Char) : Option ℚ :=
  let (neg, cs) := splitSign cs
  let mant := cs.takeWhile (fun c => c != 'e' && c != 'E')
  let rest := cs.dropWhile (fun c => c != 'e' && c != 'E')
  match rest with
  | [] => (parseMantissa mant).map (fun q => if neg then -q else q)
  | _ :: ex =>
    let (eneg, eds) := splitSign ex
    if isDigits eds then
      (parseMantissa mant).map (fun q =>
        let scaled := if eneg then q / 10 ^ digitsVal eds else q * 10 ^ digitsVal eds
        if neg then -scaled else scaled)
    else none

/-- `D(x)` (source lines 31–41): coerce anything to an exact decimal, `0` on
failure.  `bool` hits the `isinstance(x, (int, float))` branch but
`Decimal(str(True))` raises `InvalidOperation`, so it yields `0`.  On
strings, `Decimal` removes underscores throughout before parsing (per the
stdlib's documented conversion), modelled by the filter; a string spelling
`NaN`/`Infinity` makes the source return a non-finite `Decimal`, which is
outside the `ℚ` model and outside every theorem's hypotheses. -/
def D : PyVal → ℚ
  | .null => 0
  | .bool _ => 0
  | .int n => (n : ℚ)
  | .float q => q
  | .str s => (parseDecChars ((stripChars s.data).filter (fun c => c != '_'))).getD 0
  | .list _ => 0
  | .obj _ => 0

/-- Truncation toward zero, as Python `int(float)`. -/
def pyTrunc (q : ℚ) : Int := if 0 ≤ q then ⌊q⌋ else ⌈q⌉

/-- `i(v, default)` (source lines 43–60): coerce to int, `default` on failure.
The source strips the string, drops one leading `+` itself, then calls
`int(...)` (which strips and handles a single sign again). -/
def i (v : PyVal) (default : Int) : Int :=
  match v with
  | .null => default
  | .bool b => if b then 1 else 0
  | .int n => n
  | .float q => pyTrunc q
  | .str s =>
    let cs := stripChars s.data
    let cs2 := if cs.head? = some '+' then cs.tail else cs
    (parseIntChars cs2).getD default
  | .list _ => default
  | .obj _ => default

/-- Days since 1970-01-01 of a civil date (standard era-based algorithm;
Lean's `Int` division truncates toward zero exactly like the C family's,
and every division below has nonnegative operands). -/
def daysFromCivil (y m d : Int) : Int :=
  let y' := if m ≤ 2 then y - 1 else y
  let era := (if 0 ≤ y' then y' else y' - 399) / 400
  let yoe := y' - era * 400
  let mp := (m + 9) % 12
  let doy := (153 * mp + 2) / 5 + d - 1
  let doe := yoe * 365 + yoe / 4 - yoe / 100 + doy
  era * 146097 + doe - 719468

def isLeapYear (y : Int) : Bool :=
  (y % 4 == 0 && y % 100 != 0) || y % 400 == 0

def daysInMonth (y m : Int) : Int :=
  if m == 2 then (if isLeapYear y then 29 else 28)
  else if m == 4 || m == 6 || m == 9 || m == 11 then 30
  else 31

/-- The canonical `YYYY-MM-DDTHH:MM:SS` core accepted by both
`datetime.fromisoformat` and the source's `strptime` fallback, read as UTC. -/
def isoEpochCore (cs : List Char) : Option Int :=
  match cs with
  | [y1, y2, y3, y4, '-', m1, m2, '-', d1, d2, 'T', h1, h2, ':', n1, n2, ':', s1, s2] =>
    if ([y1, y2, y3, y4, m1, m2, d1, d2, h1, h2, n1, n2, s1, s2].all Char.isDigit) then
      let y : Int := (digitsVal [y1, y2, y3, y4] : ℕ)
      let mo : Int := (digitsVal [m1, m2] : ℕ)
      let da : Int := (digitsVal [d1, d2] : ℕ)
      let hh : Int := (digitsVal [h1, h2] : ℕ)
      let mi : Int := (digitsVal [n1, n2] : ℕ)
      let ss : Int := (digitsVal [s1, s2] : ℕ)
      if 1 ≤ y ∧ 1 ≤ mo ∧ mo ≤ 12 ∧ 1 ≤ da ∧ da ≤ daysInMonth y mo ∧
          hh ≤ 23 ∧ mi ≤ 59 ∧ ss ≤ 59 then
        some (daysFromCivil y mo da * 86400 + hh * 3600 + mi * 60 + ss)
      else none
    else none
  | _ => none

/-- The ISO branch of `epoch` (source lines 81–92): `fromisoformat` with the
trailing `Z` rewritten to `+00:00`, else the `strptime("%Y-%m-%dT%H:%M:%S")`
UTC fallback.  Modelled on the canonical second-precision format with an
optional trailing `Z`/`+00:00` marker, read as UTC.  The stdlib also accepts
further ISO-8601 shapes (date-only, basic format, …), every one of which
begins with a decimal digit, and it times a naive `fromisoformat` result
through the local timezone; the theorems that use the failure of this branch
therefore restrict to ASCII strings whose first character is not a digit,
which every `fromisoformat` shape and the `strptime` fallback reject. -/
def isoEpochChars (cs : List Char) : Option Int :=
  if cs.getLast? = some 'Z' then isoEpochCore cs.dropLast
  else if cs.length ≥ 6 && cs.drop (cs.length - 6) == ['+', '0', '0', ':', '0', '0'] then
    isoEpochCore (cs.take (cs.length - 6))
  else isoEpochCore cs

/-- `epoch(ts)` (source lines 62–93).  `bool` hits the `isinstance(ts, int)`
branch and is returned as its int value.  For an all-digit string of length
≥ 13 the source computes `int(int(s)/1000)` with float true division; that
equals exact floor division for every value below 2⁵³ (in particular for all
digit strings of ≤ 15 characters), and the theorems below stay inside that
range. -/
def epoch : PyVal → Int
  | .null => 0
  | .bool b => if b then 1 else 0
  | .int n => n
  | .float q => pyTrunc q
  | .str s =>
    let t := stripChars s.data
    if isDigits t then
      if 13 ≤ t.length then (digitsVal t : Int) / 1000
      else (digitsVal t : Int)
    else
      match isoEpochChars t with
      | some v => v
      | none => 0
  | .list _ => 0
  | .obj _ => 0

/-! ### Paginated fetcher (source lines 115–198) -/

/-- Python `x or y` on an optional lookup result. -/
def pyOr (a b : Option PyVal) : Option PyVal :=
  match a with
  | some v => if pyTruthy v then some v else b
  | none => b

/-- `get_ci(...) or []`. -/
def pyOrList (a : Option PyVal) : PyVal :=
  match a with
  | some v => if pyTruthy v then v else .list []
  | none => .list []

/-- The item container as a list (the feed's item containers are JSON arrays;
indexing a non-list truthy container would crash the source and does not
occur). -/
def listOf : PyVal → List PyVal
  | .list xs => xs
  | _ => []

/-- `if items and not isinstance(items[0], dict): items = [{"value": it} ...]`. -/
def wrapItems (xs : List PyVal) : List PyVal :=
  match xs with
  | [] => []
  | .obj _ :: _ => xs
  | _ => xs.map (fun it => .obj [("value", it)])

/-- `extract_items_and_token(payload)` (source lines 115–133). -/
def extract_items_and_token (payload : PyVal) : List PyVal × Option PyVal :=
  match payload with
  | .list xs => (xs, none)
  | .obj fs =>
    let token0 := getCI fs ["continuationToken", "continuation_token"]
    let items0 := pyOrList (getCI fs ["items", "txs"])
    let step :=
      if pyTruthy items0 then (items0, token0)
      else
        match getCI fs ["result"] with
        | some (.obj res) =>
          (pyOrList (getCI res ["items", "txs"]),
           pyOr (getCI res ["continuationToken"]) token0)
        | some (.list rs) => (.list rs, token0)
        | _ => (items0, token0)
    (wrapItems (listOf step.1), step.2)
  | _ => ([], none)

/-- Outcome of one page-request attempt: a decoded JSON payload, an HTTP 5xx
(raised and retried), or any other exception (network error, 4xx from
`raise_for_status`, malformed JSON — all retried alike). -/
inductive PageAttempt where
  | ok (payload : PyVal)
  | serverErr
  | exc

def pageAttemptResult : PageAttempt → Option PyVal
  | .ok p => some p
  | .serverErr => none
  | .exc => none

/-- The `for attempt in range(5)` retry loop of one page fetch (source lines
171–185): the payload of the first successful attempt, `none` when all
attempts fail (the `for`'s `else:` branch, which calls `sys.exit(1)`). -/
def pageAttemptLoop (atts : List PageAttempt) : Option PyVal :=
  atts.findSome? pageAttemptResult

/-- `if not token` on the extracted continuation token. -/
def tokenTruthy : Option PyVal → Bool
  | some v => pyTruthy v
  | none => false

/-- `if not token or got == 0: break` negated — the pagination loop continues
exactly when the extracted token is truthy and the page yielded items. -/
def pageContinues (payload : PyVal) : Bool :=
  tokenTruthy (extract_items_and_token payload).2 &&
    !(extract_items_and_token payload).1.isEmpty

/-- `max_pages and page >= max_pages` (a negative CLI value is not modelled). -/
def capAt (maxPages page : ℕ) : Bool :=
  maxPages != 0 && decide (maxPages ≤ page)

/-- The pagination loop of `fetch_all_txs` (source lines 163–198) over the
per-page payloads `payload` (`none` = that page's five attempts were all
exhausted).  `.error 1` models `sys.exit(1)`.  `fuel` bounds the number of
loop iterations; every theorem below supplies more fuel than pages used, so
the `0`-fuel artifact case is never reached. -/
def fetchAllGo (payload : ℕ → Option PyVal) (maxPages : ℕ) : ℕ → ℕ → Except ℕ (List PyVal)
  | 0, _ => .ok []
  | fuel + 1, page =>
    if capAt maxPages page then .ok []
    else
      match payload page with
      | none => .error 1
      | some data =>
        if pageContinues data then
          match fetchAllGo payload maxPages fuel (page + 1) with
          | .ok rest => .ok ((extract_items_and_token data).1 ++ rest)
          | .error e => .error e
        else .ok (extract_items_and_token data).1

/-- `fetch_all_txs` with the network modelled by `att page attempt`, the
outcome of each attempt of each page. -/
def fetch_all_txs (att : ℕ → ℕ → PageAttempt) (maxPages fuel : ℕ) : Except ℕ (List PyVal) :=
  fetchAllGo (fun p => pageAttemptLoop ((List.range 5).map (att p))) maxPages fuel 0

/-! ### Detail resolver (source lines 211–230) -/

/-- Outcome of one detail-request attempt: decoded JSON, HTTP 404 (definitive
absence), HTTP 5xx (raised and retried), or any other exception. -/
inductive DetailAttempt where
  | ok (payload : PyVal)
  | notFound
  | serverErr
  | exc

/-- On success: unwrap one `result` envelope if it is a dict, else return the
dict itself; a non-dict payload yields `None` (source lines 221–227). -/
def unwrapDetail (p : PyVal) : Option PyVal :=
  match p with
  | .obj fs =>
    match getCI fs ["result"] with
    | some (.obj res) => some (.obj res)
    | _ => some (.obj fs)
  | _ => none

/-- The `for attempt in range(4)` loop of `fetch_tx_detail`; the second
component counts the attempts begun (an observation added for the claims —
the source returns only the first component). -/
def detailLoop : List DetailAttempt → Option PyVal × ℕ
  | [] => (none, 0)
  | .ok p :: _ => (unwrapDetail p, 1)
  | .notFound :: _ => (none, 1)
  | .serverErr :: rest => let r := detailLoop rest; (r.1, r.2 + 1)
  | .exc :: rest => let r := detailLoop rest; (r.1, r.2 + 1)

/-- `fetch_tx_detail` with the network modelled by `att attempt`. -/
def fetch_tx_detail (att : ℕ → DetailAttempt) : Option PyVal × ℕ :=
  detailLoop ((List.range 4).map att)

/-! ### Transaction classifier (source lines 200–209 and 265–316) -/

/-- `get_tx_hash_from_item(item)` helper: a nonempty stripped string hash. -/
def strHash (v : Option PyVal) : Option String :=
  match v with
  | some (.str s) => if (stripChars s.data).isEmpty then none else some ⟨stripChars s.data⟩
  | _ => none

def hashAliases : List String := ["hash", "txHash", "transactionHash", "id", "txId"]

/-- `get_tx_hash_from_item(item)` (source lines 200–209). -/
def get_tx_hash_from_item (item : PyVal) : Option String :=
  match strHash (getCIv item hashAliases) with
  | some h => some h
  | none =>
    match getCIv item ["tx", "transaction"] with
    | some (.obj tfs) => strHash (getCI tfs hashAliases)
    | _ => none

/-- A classified record (the dict built at source lines 304–315; decimal
fields are stored as `str(...)` and re-parsed exactly, so they are carried
as `ℚ` directly). -/
structure TxRecord where
  hash : String
  block : Int
  timestamp : Int
  direction : String
  amount : ℚ
  fee : ℚ
  tips : ℚ
  type : String
  delta : ℚ
  balance : Option ℚ
deriving DecidableEq

/-- The classification of source lines 292–303, on the already-lowercased
addresses: direction and delta. -/
def classifyDirDelta (my f t : String) (amt fee tips : ℚ) : String × ℚ :=
  if f = my ∧ t ≠ my then ("out", -(amt + fee + tips))
  else if t = my ∧ f ≠ my then ("in", amt)
  else if t = my ∧ f = my then ("self", 0)
  else ("other", 0)

/-- A string field of the detail record: `(get_ci(...) or "")` for the
string-or-absent fields `from`/`to`/`type` (the feed's values are strings). -/
def getStrField (v : Option PyVal) : String :=
  match v with
  | some (.str s) => s
  | _ => ""

/-- The body of the `for it in items:` loop of `build_records` (source lines
268–315): `none` models `continue`.  `my` is the already-lowercased subject
address. -/
def processItem (my : String) (details : List (String × PyVal)) (item : PyVal) :
    Option TxRecord :=
  match get_tx_hash_from_item item with
  | none => none
  | some h =>
    match lookupDict details h with
    | some (.obj det) =>
      let block_i := i (valOrNull (getCI det ["blockHeight"])) 0
      if block_i ≤ 0 then none
      else
        let amt_d := D (valOrNull (getCI det ["amount", "value"]))
        let fee_d := D (valOrNull (getCI det ["fee"]))
        let tips_d := D (valOrNull (getCI det ["tips"]))
        let f_addr := lowerStr (getStrField (getCI det ["from"]))
        let t_addr := lowerStr (getStrField (getCI det ["to"]))
        let dd := classifyDirDelta my f_addr t_addr amt_d fee_d tips_d
        some {
          hash := h
          block := block_i
          timestamp := epoch (valOrNull (getCI det ["timestamp"]))
          direction := dd.1
          amount := amt_d
          fee := fee_d
          tips := tips_d
          type := getStrField (getCI det ["type"])
          delta := dd.2
          balance := none }
    | _ => none

/-- `build_records(addr, items, details)` (source lines 265–316). -/
def build_records (addr : String) (items : List PyVal)
    (details : List (String × PyVal)) : List TxRecord :=
  items.filterMap (processItem (lowerStr addr) details)

/-! ### Balance reconstructor (source lines 318–346)

`sorted(recs, key=lambda x: (x["block"], x["timestamp"]), reverse=True)` is
the stable descending sort: record `p` precedes `q` exactly when `p`'s key is
lexicographically greater, or the keys are equal and `p` came first in the
input.  Decorating each record with its input index turns that order into a
linear order, under which the stable sort is the unique sorted permutation;
`descLE` below spells it out on components. -/

def descLE (p q : ℕ × TxRecord) : Prop :=
  q.2.block < p.2.block ∨
    (q.2.block = p.2.block ∧
      (q.2.timestamp < p.2.timestamp ∨
        (q.2.timestamp = p.2.timestamp ∧ p.1 ≤ q.1)))

instance : DecidableRel descLE := fun p q => by
  unfold descLE
  infer_instance

/-- The index-decorated descending sort `recs_desc` (source line 321). -/
def sortDescEnum (recs : List TxRecord) : List (ℕ × TxRecord) :=
  (recs.enum).insertionSort descLE

/-- `recs_desc` (source line 321). -/
def recsDescOf (recs : List TxRecord) : List TxRecord :=
  (sortDescEnum recs).map Prod.snd

/-- `recs_asc = list(reversed(recs_desc))` (source line 322). -/
def recsAscOf (recs : List TxRecord) : List TxRecord :=
  (recsDescOf recs).reverse

/-- One step of the descending calibration walk (source lines 328–332),
re-deriving the delta from the sign rules. -/
def invertDelta (bal : ℚ) (r : TxRecord) : ℚ :=
  if r.direction = "out" then bal + (r.amount + r.fee + r.tips)
  else if r.direction = "in" then bal - r.amount
  else bal

/-- `start_bal` (source lines 326–335): calibrated start balance when a
current balance is available, else `0`. -/
def start_balance (recs : List TxRecord) (currBalance : Option ℚ) : ℚ :=
  match currBalance with
  | some c => (recsDescOf recs).foldl invertDelta c
  | none => 0

/-- One step of the ascending walk (source lines 339–342). -/
def applyDelta (bal : ℚ) (r : TxRecord) : ℚ :=
  if r.direction = "out" then bal - (r.amount + r.fee + r.tips)
  else if r.direction = "in" then bal + r.amount
  else bal

/-- The ascending walk (source lines 337–345): stamp each record with the
running balance immediately after it. -/
def stampBalances : ℚ → List TxRecord → List TxRecord
  | _, [] => []
  | bal, r :: rs =>
    let b := applyDelta bal r
    { r with balance := some b } :: stampBalances b rs

/-- `reconstruct_balance(addr, recs, ...)` (source lines 318–346), with the
outcome of the current-balance query (`get_current_balance` under
`calibrate`) modelled by the `currBalance` parameter. -/
def reconstruct_balance (recs : List TxRecord) (currBalance : Option ℚ) :
    List TxRecord × Option ℚ :=
  (stampBalances (start_balance recs currBalance) (recsAscOf recs), currBalance)

/-- The signed net change of one record under the sign convention of
§4.5 steps 2/4 of the spec: `out` ⇒ `-(amount+fee+tips)`, `in` ⇒ `+amount`,
anything else ⇒ `0`. -/
def appliedDelta (r : TxRecord) : ℚ :=
  if r.direction = "out" then -(r.amount + r.fee + r.tips)
  else if r.direction = "in" then r.amount
  else 0

/-- The net change `Δ` of a record list. -/
def netDelta (recs : List TxRecord) : ℚ :=
  (recs.map appliedDelta).sum

/-! ### Concrete data for the end-to-end example and the witnesses -/

/-- First page item of the end-to-end example (§8 of the spec). -/
def itmA : PyVal := .obj [("hash", .str "h1")]

/-- Second page item of the end-to-end example. -/
def itmB : PyVal := .obj [("hash", .str "h2")]

/-- Detail record of the example: block 100, from=A, to=B, amount 5,
fee 0.01, tips 0. -/
def detA : PyVal := .obj [("blockHeight", .int 100), ("timestamp", .int 1000),
  ("type", .str "SendTx"), ("from", .str "0xAAA"), ("to", .str "0xBBB"),
  ("amount", .str "5"), ("fee", .str "0.01"), ("tips", .str "0")]

/-- Detail record of the example: block 200, from=B, to=A, amount 2,
fee 0, tips 0. -/
def detB : PyVal := .obj [("blockHeight", .int 200), ("timestamp", .int 2000),
  ("type", .str "SendTx"), ("from", .str "0xBBB"), ("to", .str "0xAAA"),
  ("amount", .str "2"), ("fee", .str "0"), ("tips", .str "0")]

/-- The resolved details of the example, keyed by hash. -/
def detailsAB : List (String × PyVal) := [("h1", detA), ("h2", detB)]

/-- The classified records of the end-to-end example. -/
def recsAB : List TxRecord := build_records "0xAAA" [itmA, itmB] detailsAB

/-- Two records sharing (block, timestamp), in input order "a" then "b". -/
def recTieA : TxRecord :=
  { hash := "a", block := 5, timestamp := 7, direction := "other",
    amount := 0, fee := 0, tips := 0, type := "", delta := 0, balance := none }

/-- Same key as `recTieA`, later in the input. -/
def recTieB : TxRecord :=
  { recTieA with hash := "b" }

/-- A one-page response used by the pagination witness: items but no
continuation token. -/
def pageOnly : PyVal := .obj [("items", .list [.obj [("hash", .str "h")]])]

/-- A concrete record used by witnesses: an `in` transfer of 1. -/
def recIn1 : TxRecord :=
  { hash := "w", block := 3, timestamp := 4, direction := "in",
    amount := 1, fee := 0, tips := 0, type := "SendTx", delta := 1, balance := none }

attribute [local semireducible] Rat.add Rat.mul Rat.inv Rat.sub Rat.ofScientific

/-! ### Helper lemmas -/

theorem applyDelta_eq (bal : ℚ) (r : TxRecord) :
    applyDelta bal r = bal + appliedDelta r := by
  unfold applyDelta appliedDelta
  split
  · ring
  · split <;> ring

theorem invertDelta_eq (bal : ℚ) (r : TxRecord) :
    invertDelta bal r = bal - appliedDelta r := by
  unfold invertDelta appliedDelta
  split
  · ring
  · split <;> ring

theorem foldl_applyDelta (l : List TxRecord) : ∀ b : ℚ,
    l.foldl applyDelta b = b + netDelta l := by
  induction l with
  | nil => intro b; simp [netDelta]
  | cons r rs ih =>
    intro b
    simp only [List.foldl_cons, ih, applyDelta_eq, netDelta, List.map_cons, List.sum_cons]
    ring

theorem foldl_invertDelta (l : List TxRecord) : ∀ b : ℚ,
    l.foldl invertDelta b = b - netDelta l := by
  induction l with
  | nil => intro b; simp [netDelta]
  | cons r rs ih =>
    intro b
    simp only [List.foldl_cons, ih, invertDelta_eq, netDelta, List.map_cons, List.sum_cons]
    ring

theorem sortDescEnum_perm (recs : List TxRecord) :
    (sortDescEnum recs).Perm recs.enum :=
  List.perm_insertionSort descLE recs.enum

theorem recsDescOf_perm (recs : List TxRecord) : (recsDescOf recs).Perm recs := by
  have h := (sortDescEnum_perm recs).map Prod.snd
  simpa [recsDescOf, List.enum_map_snd] using h

theorem recsAscOf_perm (recs : List TxRecord) : (recsAscOf recs).Perm recs :=
  (List.reverse_perm (recsDescOf recs)).trans (recsDescOf_perm recs)

theorem netDelta_recsDescOf (recs : List TxRecord) :
    netDelta (recsDescOf recs) = netDelta recs :=
  ((recsDescOf_perm recs).map appliedDelta).sum_eq

theorem netDelta_recsAscOf (recs : List TxRecord) :
    netDelta (recsAscOf recs) = netDelta recs :=
  ((recsAscOf_perm recs).map appliedDelta).sum_eq

theorem stampBalances_last (l : List TxRecord) : ∀ b : ℚ, l ≠ [] →
    ((stampBalances b l).map TxRecord.balance).getLast? =
      some (some (l.foldl applyDelta b)) := by
  induction l with
  | nil => intro b h; exact absurd rfl h
  | cons r rs ih =>
    intro b _
    cases rs with
    | nil => simp [stampBalances]
    | cons r2 rs2 =>
      have h2 : (r2 :: rs2 : List TxRecord) ≠ [] := by simp
      calc ((stampBalances b (r :: r2 :: rs2)).map TxRecord.balance).getLast?
          = ((stampBalances (applyDelta b r) (r2 :: rs2)).map TxRecord.balance).getLast? := by
            simp [stampBalances, List.getLast?_cons_cons]
        _ = some (some ((r2 :: rs2).foldl applyDelta (applyDelta b r))) := ih _ h2
        _ = some (some ((r :: r2 :: rs2).foldl applyDelta b)) := by simp

/-! ### Claim theorems -/

/-- C2: for every record list `R` with non-negative amount, fee and tips and
every supplied current balance `C`, `reconstruct_balance` computes
`startBalance = C - Δ` (`Δ` the net change of `R` under the sign rules), and
the balance stamped on the last record of the ascending series is exactly
`C`. -/
theorem C2_calibration (recs : List TxRecord) (C : ℚ)
    (hnn : ∀ r ∈ recs, 0 ≤ r.amount ∧ 0 ≤ r.fee ∧ 0 ≤ r.tips)
    (hne : recs ≠ []) :
    start_balance recs (some C) = C - netDelta recs ∧
    ((reconstruct_balance recs (some C)).1.map TxRecord.balance).getLast? =
      some (some C) := by
  have h1 : start_balance recs (some C) = C - netDelta recs := by
    simp [start_balance, foldl_invertDelta, netDelta_recsDescOf]
  refine ⟨h1, ?_⟩
  have hasc : recsAscOf recs ≠ [] := by
    intro h
    have hlen := (recsAscOf_perm recs).length_eq
    rw [h] at hlen
    exact hne (List.eq_nil_of_length_eq_zero hlen.symm)
  rw [reconstruct_balance, stampBalances_last _ _ hasc, foldl_applyDelta, h1,
    netDelta_recsAscOf]
  norm_num

/-- C3: against a fixed subject address, every case-insensitively compared
(from, to) pair is assigned exactly one direction among in/out/self/other,
with `delta` equal to `-(amount+fee+tips)` for `out`, `+amount` for `in` and
`0` otherwise; under non-negative amount, fee and tips the delta of an `out`
record is ≤ 0, of an `in` record ≥ 0, and of `self`/`other` exactly 0. -/
theorem C3_classification (addr frm to_ : String) (amt fee tips : ℚ)
    (ha : 0 ≤ amt) (hf : 0 ≤ fee) (ht : 0 ≤ tips) :
    ((classifyDirDelta (lowerStr addr) (lowerStr frm) (lowerStr to_) amt fee tips).1 = "out" ∨
     (classifyDirDelta (lowerStr addr) (lowerStr frm) (lowerStr to_) amt fee tips).1 = "in" ∨
     (classifyDirDelta (lowerStr addr) (lowerStr frm) (lowerStr to_) amt fee tips).1 = "self" ∨
     (classifyDirDelta (lowerStr addr) (lowerStr frm) (lowerStr to_) amt fee tips).1 = "other") ∧
    ((lowerStr frm = lowerStr addr ∧ lowerStr to_ ≠ lowerStr addr) ↔
      (classifyDirDelta (lowerStr addr) (lowerStr frm) (lowerStr to_) amt fee tips).1 = "out") ∧
    ((lowerStr to_ = lowerStr addr ∧ lowerStr frm ≠ lowerStr addr) ↔
      (classifyDirDelta (lowerStr addr) (lowerStr frm) (lowerStr to_) amt fee tips).1 = "in") ∧
    ((lowerStr to_ = lowerStr addr ∧ lowerStr frm = lowerStr addr) ↔
      (classifyDirDelta (lowerStr addr) (lowerStr frm) (lowerStr to_) amt fee tips).1 = "self") ∧
    ((¬(lowerStr frm = lowerStr addr ∧ lowerStr to_ ≠ lowerStr addr) ∧
      ¬(lowerStr to_ = lowerStr addr ∧ lowerStr frm ≠ lowerStr addr) ∧
      ¬(lowerStr to_ = lowerStr addr ∧ lowerStr frm = lowerStr addr)) ↔
      (classifyDirDelta (lowerStr addr) (lowerStr frm) (lowerStr to_) amt fee tips).1 = "other") ∧
    ((classifyDirDelta (lowerStr addr) (lowerStr frm) (lowerStr to_) amt fee tips).1 = "out" →
      (classifyDirDelta (lowerStr addr) (lowerStr frm) (lowerStr to_) amt fee tips).2 = -(amt + fee + tips) ∧
      (classifyDirDelta (lowerStr addr) (lowerStr frm) (lowerStr to_) amt fee tips).2 ≤ 0) ∧
    ((classifyDirDelta (lowerStr addr) (lowerStr frm) (lowerStr to_) amt fee tips).1 = "in" →
      (classifyDirDelta (lowerStr addr) (lowerStr frm) (lowerStr to_) amt fee tips).2 = amt ∧
      0 ≤ (classifyDirDelta (lowerStr addr) (lowerStr frm) (lowerStr to_) amt fee tips).2) ∧
    ((classifyDirDelta (lowerStr addr) (lowerStr frm) (lowerStr to_) amt fee tips).1 = "self" →
      (classifyDirDelta (lowerStr addr) (lowerStr frm) (lowerStr to_) amt fee tips).2 = 0) ∧
    ((classifyDirDelta (lowerStr addr) (lowerStr frm) (lowerStr to_) amt fee tips).1 = "other" →
      (classifyDirDelta (lowerStr addr) (lowerStr frm) (lowerStr to_) amt fee tips).2 = 0) := by
  simp only [classifyDirDelta]
  by_cases h1 : lowerStr frm = lowerStr addr ∧ lowerStr to_ ≠ lowerStr addr
  · simp [h1]
    linarith
  · by_cases h2 : lowerStr to_ = lowerStr addr ∧ lowerStr frm ≠ lowerStr addr
    · simp [h1, h2]
      exact ha
    · by_cases h3 : lowerStr to_ = lowerStr addr ∧ lowerStr frm = lowerStr addr
      · simp [h1, h2, h3]
      · simp [h1, h2, h3]

/-- C6: end-to-end on the two example records — with no current balance the
series balances are [-5.01, -3.01]; with current balance 10 the start
balance is 13.01 and the series balances are [8.00, 10.00]. -/
theorem C6_end_to_end :
    (reconstruct_balance recsAB none).1.map TxRecord.balance =
      [some (-501/100), some (-301/100)] ∧
    start_balance recsAB (some 10) = 1301/100 ∧
    (reconstruct_balance recsAB (some 10)).1.map TxRecord.balance =
      [some 8, some 10] :=
  ⟨by decide, by decide, by decide⟩

instance : IsTotal (ℕ × TxRecord) descLE :=
  ⟨by intro p q; unfold descLE; omega⟩

instance : IsTrans (ℕ × TxRecord) descLE :=
  ⟨by intro a b c; unfold descLE; omega⟩

theorem sortDescEnum_sorted (recs : List TxRecord) :
    (sortDescEnum recs).Pairwise descLE :=
  List.sorted_insertionSort descLE recs.enum

theorem sortDescEnum_fst_nodup (recs : List TxRecord) :
    (sortDescEnum recs).Pairwise (fun p q => p.1 ≠ q.1) := by
  have hperm : ((sortDescEnum recs).map Prod.fst).Perm (recs.enum.map Prod.fst) :=
    (sortDescEnum_perm recs).map Prod.fst
  have hnd : ((sortDescEnum recs).map Prod.fst).Nodup := by
    refine hperm.nodup_iff.mpr ?_
    rw [List.enum_map_fst]
    exact List.nodup_range _
  exact (List.pairwise_map.mp hnd)

/-- C1 fails: two records sharing (block, timestamp), input order "a" then
"b", come out of the ascending series in the order "b" then "a" — the
original relative order is reversed, not preserved. -/
theorem C1_counterexample :
    recTieA.block = recTieB.block ∧ recTieA.timestamp = recTieB.timestamp ∧
    (recsAscOf [recTieA, recTieB]).map TxRecord.hash ≠ ["a", "b"] ∧
    (recsAscOf [recTieA, recTieB]).map TxRecord.hash = ["b", "a"] :=
  ⟨rfl, rfl, by decide, by decide⟩

/-- C1 (amended): the ascending series is ordered by (block, timestamp)
ascending, it is the reversal of the index-decorated stable descending sort,
and any two records sharing both block and timestamp appear in the ascending
series in strictly *reversed* original relative order (the stable sort is
applied in descending direction and then reversed). -/
theorem C1_sort_order (recs : List TxRecord) :
    (recsAscOf recs).Pairwise (fun a b =>
      a.block < b.block ∨ (a.block = b.block ∧ a.timestamp ≤ b.timestamp)) ∧
    recsAscOf recs = ((sortDescEnum recs).reverse).map Prod.snd ∧
    ((sortDescEnum recs).reverse).Pairwise (fun p q =>
      p.2.block = q.2.block ∧ p.2.timestamp = q.2.timestamp → q.1 < p.1) := by
  have hsorted := sortDescEnum_sorted recs
  refine ⟨?_, ?_, ?_⟩
  · rw [recsAscOf, recsDescOf, ← List.map_reverse, List.pairwise_map,
      List.pairwise_reverse]
    exact hsorted.imp (by intro p q h; unfold descLE at h; omega)
  · simp [recsAscOf, recsDescOf, List.map_reverse]
  · rw [List.pairwise_reverse]
    refine (hsorted.and (sortDescEnum_fst_nodup recs)).imp ?_
    intro p q h
    obtain ⟨hle, hne⟩ := h
    unfold descLE at hle
    intro hk
    omega

/-- `processItem` succeeds only on a resolvable hash, a dict detail and a
positive normalized block height, and then stamps that block height. -/
theorem processItem_some_inv (my : String) (details : List (String × PyVal))
    (item : PyVal) (r : TxRecord)
    (hr : processItem my details item = some r) :
    1 ≤ r.block ∧ ∃ h fields, get_tx_hash_from_item item = some h ∧
      lookupDict details h = some (.obj fields) ∧
      1 ≤ i (valOrNull (getCI fields ["blockHeight"])) 0 := by
  unfold processItem at hr
  rcases hh : get_tx_hash_from_item item with _ | h <;> rw [hh] at hr <;>
    try dsimp only at hr
  · exact Option.noConfusion hr
  rcases hd : lookupDict details h with _ | v <;> rw [hd] at hr <;>
    try dsimp only at hr
  · exact Option.noConfusion hr
  cases v
  case obj det =>
    dsimp only at hr
    by_cases hb : i (valOrNull (getCI det ["blockHeight"])) 0 ≤ 0
    · rw [if_pos hb] at hr
      exact Option.noConfusion hr
    · rw [if_neg hb] at hr
      injection hr with h'
      subst h'
      refine ⟨?_, h, det, rfl, hd, by omega⟩
      show 1 ≤ i (valOrNull (getCI det ["blockHeight"])) 0
      omega
  all_goals exact Option.noConfusion hr

/-- Conversely, a resolvable hash, dict detail and positive block height make
`processItem` emit a record. -/
theorem processItem_some_of_usable (my : String) (details : List (String × PyVal))
    (item : PyVal) (h : String) (fields : List (String × PyVal))
    (hh : get_tx_hash_from_item item = some h)
    (hd : lookupDict details h = some (.obj fields))
    (hb : 1 ≤ i (valOrNull (getCI fields ["blockHeight"])) 0) :
    (processItem my details item).isSome := by
  unfold processItem
  rw [hh]
  dsimp only
  rw [hd]
  dsimp only
  rw [if_neg (by omega)]
  rfl

/-- C7: an item is skipped precisely when it has no resolvable hash, no dict
detail record, or a detail whose normalized `blockHeight` is not positive;
every emitted record has block ≥ 1. -/
theorem C7_skip_conditions :
    (∀ (my : String) (details : List (String × PyVal)) (item : PyVal),
      (∃ r, processItem my details item = some r) ↔
        ∃ h fields, get_tx_hash_from_item item = some h ∧
          lookupDict details h = some (.obj fields) ∧
          1 ≤ i (valOrNull (getCI fields ["blockHeight"])) 0) ∧
    (∀ (addr : String) (items : List PyVal) (details : List (String × PyVal))
      (r : TxRecord), r ∈ build_records addr items details → 1 ≤ r.block) := by
  constructor
  · intro my details item
    constructor
    · rintro ⟨r, hr⟩
      exact (processItem_some_inv my details item r hr).2
    · rintro ⟨h, fields, hh, hd, hb⟩
      exact Option.isSome_iff_exists.mp
        (processItem_some_of_usable my details item h fields hh hd hb)
  · intro addr items details r hm
    rw [build_records, List.mem_filterMap] at hm
    obtain ⟨it, _, hpi⟩ := hm
    exact (processItem_some_inv _ details it r hpi).1

/-- `[r, r]` is already in ascending order (duplicates tie and keep the
decorated index order, whose reversal is the same two equal records). -/
theorem recsAscOf_pair (r : TxRecord) : recsAscOf [r, r] = [r, r] := by
  have hle : descLE (0, r) (1, r) := by unfold descLE; dsimp only; omega
  simp [recsAscOf, recsDescOf, sortDescEnum, List.insertionSort, List.orderedInsert,
    List.enum, List.enumFrom, hle]

/-- C10: `build_records` classifies per input item with no deduplication —
it distributes over concatenation, a duplicated item yields the identical
record twice, and the duplicated record's delta is applied twice by the
reconstruction walk. -/
theorem C10_no_dedup :
    (∀ (addr : String) (items₁ items₂ : List PyVal) (details : List (String × PyVal)),
      build_records addr (items₁ ++ items₂) details =
        build_records addr items₁ details ++ build_records addr items₂ details) ∧
    (∀ (addr : String) (details : List (String × PyVal)) (item : PyVal) (r : TxRecord),
      processItem (lowerStr addr) details item = some r →
        build_records addr [item, item] details = [r, r] ∧
        netDelta [r, r] = 2 * appliedDelta r ∧
        (reconstruct_balance [r, r] none).1.map TxRecord.balance =
          [some (appliedDelta r), some (appliedDelta r + appliedDelta r)]) := by
  constructor
  · intro addr items₁ items₂ details
    simp [build_records, List.filterMap_append]
  · intro addr details item r hr
    refine ⟨by simp [build_records, hr], ?_, ?_⟩
    · simp [netDelta]
      ring
    · rw [reconstruct_balance, recsAscOf_pair]
      simp only [start_balance, stampBalances, applyDelta_eq, List.map_cons,
        List.map_nil]
      norm_num

/-! ### Character and list facts for the normalizer claims -/

theorem digit_ne (c : Char) (h : c.isDigit = true) :
    c ≠ '+' ∧ c ≠ '-' ∧ c ≠ ':' ∧ c ≠ 'T' ∧ c ≠ 'Z' ∧
    (c != '.') = true ∧ (c != 'e' && c != 'E') = true := by
  refine ⟨?_, ?_, ?_, ?_, ?_, ?_, ?_⟩
  · intro hc; rw [hc] at h; exact absurd h (by decide)
  · intro hc; rw [hc] at h; exact absurd h (by decide)
  · intro hc; rw [hc] at h; exact absurd h (by decide)
  · intro hc; rw [hc] at h; exact absurd h (by decide)
  · intro hc; rw [hc] at h; exact absurd h (by decide)
  · rw [bne_iff_ne]; intro hc; rw [hc] at h; exact absurd h (by decide)
  · rw [Bool.and_eq_true, bne_iff_ne, bne_iff_ne]
    constructor
    · intro hc; rw [hc] at h; exact absurd h (by decide)
    · intro hc; rw [hc] at h; exact absurd h (by decide)

theorem digit_not_ws (c : Char) (h : c.isDigit = true) :
    c.isWhitespace = false := by
  by_contra hw
  rw [Bool.not_eq_false] at hw
  simp only [Char.isWhitespace, Bool.or_eq_true, decide_eq_true_eq] at hw
  rcases hw with ((rfl | rfl) | rfl) | rfl <;> exact absurd h (by decide)

theorem dropWhile_eq_self_of {p : Char → Bool} (l : List Char)
    (h : ∀ c ∈ l, p c = false) : l.dropWhile p = l := by
  cases l with
  | nil => rfl
  | cons a l => rw [List.dropWhile_cons, h a (by simp)]; simp

theorem stripChars_eq_self (cs : List Char)
    (h : ∀ c ∈ cs, c.isWhitespace = false) : stripChars cs = cs := by
  unfold stripChars
  rw [dropWhile_eq_self_of cs h,
    dropWhile_eq_self_of cs.reverse (by intro c hc; exact h c (List.mem_reverse.mp hc)),
    List.reverse_reverse]

theorem takeWhile_all {p : Char → Bool} (l : List Char)
    (h : ∀ c ∈ l, p c = true) : l.takeWhile p = l := by
  induction l with
  | nil => rfl
  | cons a l ih =>
    rw [List.takeWhile_cons, h a (by simp)]
    simp [ih (fun c hc => h c (by simp [hc]))]

theorem dropWhile_all {p : Char → Bool} (l : List Char)
    (h : ∀ c ∈ l, p c = true) : l.dropWhile p = [] := by
  induction l with
  | nil => rfl
  | cons a l ih =>
    rw [List.dropWhile_cons, h a (by simp)]
    exact ih (fun c hc => h c (by simp [hc]))

theorem takeWhile_append_stop {p : Char → Bool} (l₁ : List Char) (a : Char)
    (l₂ : List Char) (h : ∀ c ∈ l₁, p c = true) (ha : p a = false) :
    (l₁ ++ a :: l₂).takeWhile p = l₁ := by
  induction l₁ with
  | nil => simp [List.takeWhile_cons, ha]
  | cons b l ih =>
    rw [List.cons_append, List.takeWhile_cons, h b (by simp)]
    simp [ih (fun c hc => h c (by simp [hc]))]

theorem dropWhile_append_stop {p : Char → Bool} (l₁ : List Char) (a : Char)
    (l₂ : List Char) (h : ∀ c ∈ l₁, p c = true) (ha : p a = false) :
    (l₁ ++ a :: l₂).dropWhile p = a :: l₂ := by
  induction l₁ with
  | nil => simp [List.dropWhile_cons, ha]
  | cons b l ih =>
    rw [List.cons_append, List.dropWhile_cons, h b (by simp)]
    exact ih (fun c hc => h c (by simp [hc]))

theorem isoEpochCore_eq_none (cs : List Char) (h : 'T' ∉ cs) :
    isoEpochCore cs = none := by
  unfold isoEpochCore
  split
  · simp at h
  · rfl

theorem isoEpochChars_eq_none (cs : List Char) (hT : 'T' ∉ cs)
    (hc : ':' ∉ cs) : isoEpochChars cs = none := by
  unfold isoEpochChars
  by_cases hz : cs.getLast? = some 'Z'
  · rw [if_pos hz]
    exact isoEpochCore_eq_none _ (fun hm => hT ((List.dropLast_sublist cs).mem hm))
  · rw [if_neg hz]
    by_cases hs : (cs.length ≥ 6 && cs.drop (cs.length - 6) == ['+', '0', '0', ':', '0', '0']) = true
    · exfalso
      rw [Bool.and_eq_true, beq_iff_eq] at hs
      exact hc (List.drop_subset _ cs (hs.2 ▸ (by simp : ':' ∈ (['+', '0', '0', ':', '0', '0'] : List Char))))
    · rw [if_neg hs]
      exact isoEpochCore_eq_none _ hT

theorem filter_keep_all {p : Char → Bool} (l : List Char)
    (h : ∀ c ∈ l, p c = true) : l.filter p = l := by
  induction l with
  | nil => rfl
  | cons a t ih =>
    simp [List.filter_cons, h a (by simp), ih (fun c hc => h c (by simp [hc]))]

theorem digit_ne_underscore (c : Char) (h : c.isDigit = true) :
    (c != '_') = true := by
  rw [bne_iff_ne]
  intro hc
  rw [hc] at h
  exact absurd h (by decide)

/-- C5 fails for `toEpochSeconds`: the signed numeric string "+5" does not
yield its integer value 5 — `str.isdigit` rejects the sign, the string falls
through to the date parsers, and the result is the default 0 (while `toInt`
and `toDecimal` do accept the sign). -/
theorem C5_counterexample :
    epoch (.str "+5") = 0 ∧ epoch (.str "+5") ≠ 5 ∧ epoch (.str "-5") = 0 ∧
    i (.str "+5") 0 = 5 ∧ D (.str "+5") = 5 :=
  ⟨by decide, by decide, by decide, by decide, by decide⟩

theorem splitSign_digits (c₀ : Char) (tl : List Char) (h : c₀.isDigit = true) :
    splitSign (c₀ :: tl) = (false, c₀ :: tl) := by
  have h1 := (digit_ne c₀ h).1
  have h2 := (digit_ne c₀ h).2.1
  simp [splitSign, h1, h2]

theorem stripChars_sign_digits (c : Char) (hc : c.isWhitespace = false)
    (ds : List Char) (hmem : ∀ c' ∈ ds, c'.isDigit = true) :
    stripChars (c :: ds) = c :: ds := by
  refine stripChars_eq_self _ ?_
  intro c' hc'
  rcases List.mem_cons.mp hc' with rfl | h'
  · exact hc
  · exact digit_not_ws _ (hmem _ h')

theorem isDigits_of (ds : List Char) (hne : ds ≠ [])
    (hmem : ∀ c ∈ ds, c.isDigit = true) : isDigits ds = true := by
  cases ds with
  | nil => exact absurd rfl hne
  | cons a tl =>
    simp only [isDigits, List.isEmpty_cons, Bool.not_false, Bool.true_and]
    exact List.all_eq_true.mpr hmem

theorem parseMantissa_digits (ds : List Char) (hne : ds ≠ [])
    (hmem : ∀ c ∈ ds, c.isDigit = true) :
    parseMantissa ds = some (digitsVal ds : ℚ) := by
  unfold parseMantissa
  rw [takeWhile_all ds (fun c hc => (digit_ne c (hmem c hc)).2.2.2.2.2.1),
    dropWhile_all ds (fun c hc => (digit_ne c (hmem c hc)).2.2.2.2.2.1)]
  simp [isDigits_of ds hne hmem]

theorem parseMantissa_point (ds fs : List Char) (hne : ds ≠ [])
    (hmem : ∀ c ∈ ds, c.isDigit = true) (hfs : ∀ c ∈ fs, c.isDigit = true) :
    parseMantissa (ds ++ '.' :: fs) =
      some ((digitsVal ds : ℚ) + (digitsVal fs : ℚ) / 10 ^ fs.length) := by
  unfold parseMantissa
  rw [takeWhile_append_stop ds '.' fs
      (fun c hc => (digit_ne c (hmem c hc)).2.2.2.2.2.1) (by decide),
    dropWhile_append_stop ds '.' fs
      (fun c hc => (digit_ne c (hmem c hc)).2.2.2.2.2.1) (by decide)]
  have hnotmem : ('.' : Char) ∉ fs := fun hm => absurd (hfs _ hm) (by decide)
  have hcont : fs.contains '.' = false := by
    refine Bool.eq_false_iff.mpr (fun hcont => hnotmem (List.elem_iff.mp hcont))
  have hips : ds.isEmpty = false := by
    cases ds with
    | nil => exact absurd rfl hne
    | cons a tl => rfl
  have hall : ds.all Char.isDigit = true := List.all_eq_true.mpr hmem
  have hall2 : fs.all Char.isDigit = true := List.all_eq_true.mpr hfs
  simp [hcont, hips, hall, hall2, hnotmem]

theorem parseDecChars_digits (ds : List Char) (hne : ds ≠ [])
    (hmem : ∀ c ∈ ds, c.isDigit = true) :
    parseDecChars ds = some (digitsVal ds : ℚ) := by
  unfold parseDecChars
  cases ds with
  | nil => exact absurd rfl hne
  | cons c₀ tl =>
    rw [splitSign_digits c₀ tl (hmem c₀ (by simp))]
    dsimp only
    rw [takeWhile_all _ (fun c hc => (digit_ne c (hmem c hc)).2.2.2.2.2.2),
      dropWhile_all _ (fun c hc => (digit_ne c (hmem c hc)).2.2.2.2.2.2)]
    rw [parseMantissa_digits _ hne hmem]
    rfl

theorem parseDecChars_neg_digits (ds : List Char) (hne : ds ≠ [])
    (hmem : ∀ c ∈ ds, c.isDigit = true) :
    parseDecChars ('-' :: ds) = some (-(digitsVal ds : ℚ)) := by
  unfold parseDecChars
  have hsplit : splitSign ('-' :: ds) = (true, ds) := by simp [splitSign]
  rw [hsplit]
  dsimp only
  rw [takeWhile_all _ (fun c hc => (digit_ne c (hmem c hc)).2.2.2.2.2.2),
    dropWhile_all _ (fun c hc => (digit_ne c (hmem c hc)).2.2.2.2.2.2)]
  rw [parseMantissa_digits _ hne hmem]
  rfl

theorem parseDecChars_point (ds fs : List Char) (hne : ds ≠ [])
    (hmem : ∀ c ∈ ds, c.isDigit = true) (hfs : ∀ c ∈ fs, c.isDigit = true) :
    parseDecChars (ds ++ '.' :: fs) =
      some ((digitsVal ds : ℚ) + (digitsVal fs : ℚ) / 10 ^ fs.length) := by
  unfold parseDecChars
  cases ds with
  | nil => exact absurd rfl hne
  | cons c₀ tl =>
    have hsplit : splitSign ((c₀ :: tl) ++ '.' :: fs) = (false, (c₀ :: tl) ++ '.' :: fs) := by
      rw [List.cons_append]
      exact splitSign_digits c₀ (tl ++ '.' :: fs) (hmem c₀ (by simp))
    rw [hsplit]
    dsimp only
    have hpredAll : ∀ c ∈ (c₀ :: tl) ++ '.' :: fs, (c != 'e' && c != 'E') = true := by
      intro c hc
      rcases List.mem_append.mp hc with h' | h'
      · exact (digit_ne c (hmem c h')).2.2.2.2.2.2
      · rcases List.mem_cons.mp h' with rfl | h''
        · decide
        · exact (digit_ne c (hfs c h'')).2.2.2.2.2.2
    rw [takeWhile_all _ hpredAll, dropWhile_all _ hpredAll]
    rw [parseMantissa_point (c₀ :: tl) fs hne hmem hfs]
    rfl

theorem parseIntChars_digits (ds : List Char) (hne : ds ≠ [])
    (hmem : ∀ c ∈ ds, c.isDigit = true) :
    parseIntChars ds = some (digitsVal ds : Int) := by
  unfold parseIntChars
  rw [stripChars_eq_self ds (fun c hc => digit_not_ws c (hmem c hc))]
  dsimp only
  cases ds with
  | nil => exact absurd rfl hne
  | cons c₀ tl =>
    rw [splitSign_digits c₀ tl (hmem c₀ (by simp))]
    dsimp only
    simp [isDigits_of (c₀ :: tl) hne hmem]

theorem parseIntChars_neg_digits (ds : List Char) (hne : ds ≠ [])
    (hmem : ∀ c ∈ ds, c.isDigit = true) :
    parseIntChars ('-' :: ds) = some (-(digitsVal ds : Int)) := by
  unfold parseIntChars
  rw [stripChars_sign_digits '-' (by decide) ds hmem]
  dsimp only
  have hsplit : splitSign ('-' :: ds) = (true, ds) := by simp [splitSign]
  rw [hsplit]
  dsimp only
  simp [isDigits_of ds hne hmem]

theorem isDigits_sign_false (c : Char) (hc : c.isDigit = false) (ds : List Char) :
    isDigits (c :: ds) = false := by
  simp [isDigits, hc]

theorem isoEpochChars_sign_digits (c : Char) (hcT : c ≠ 'T') (hcC : c ≠ ':')
    (ds : List Char) (hmem : ∀ c' ∈ ds, c'.isDigit = true) :
    isoEpochChars (c :: ds) = none := by
  refine isoEpochChars_eq_none _ ?_ ?_
  · intro hm
    rcases List.mem_cons.mp hm with h' | h'
    · exact hcT h'.symm
    · exact (digit_ne _ (hmem _ h')).2.2.2.1 rfl
  · intro hm
    rcases List.mem_cons.mp hm with h' | h'
    · exact hcC h'.symm
    · exact (digit_ne _ (hmem _ h')).2.2.1 rfl

theorem i_str (s : String) (dflt : Int) :
    i (.str s) dflt =
      (parseIntChars (if (stripChars s.data).head? = some '+'
        then (stripChars s.data).tail else stripChars s.data)).getD dflt := rfl

theorem D_str (s : String) :
    D (.str s) =
      (parseDecChars ((stripChars s.data).filter (fun c => c != '_'))).getD 0 := rfl

theorem epoch_str (s : String) :
    epoch (.str s) =
      (if isDigits (stripChars s.data) then
        (if 13 ≤ (stripChars s.data).length then
          (digitsVal (stripChars s.data) : Int) / 1000
         else (digitsVal (stripChars s.data) : Int))
       else
        match isoEpochChars (stripChars s.data) with
        | some v => v
        | none => 0) := rfl

/-- C5 (amended): `toInt` accepts an optional leading sign on a numeric
string and returns its integer value, and `toDecimal` parses optionally
signed decimal strings (with or without a fractional part) exactly; but
`toEpochSeconds` returns the numeric value only for *unsigned* digit strings
— dividing by 1000 at digit length ≥ 13 (stated up to 15 digits, the range
in which the source's float division is exact) — while a signed numeric
string falls through to the date parsers and yields 0. -/
theorem C5_signed_numeric_strings (ds fs : List Char) (dflt : Int)
    (hne : ds ≠ []) (hdig : ds.all Char.isDigit = true)
    (hfs : fs.all Char.isDigit = true) :
    i (.str ⟨ds⟩) dflt = (digitsVal ds : Int) ∧
    i (.str ⟨'+' :: ds⟩) dflt = (digitsVal ds : Int) ∧
    i (.str ⟨'-' :: ds⟩) dflt = -(digitsVal ds : Int) ∧
    D (.str ⟨ds⟩) = (digitsVal ds : ℚ) ∧
    D (.str ⟨'-' :: ds⟩) = -(digitsVal ds : ℚ) ∧
    (fs ≠ [] → D (.str ⟨ds ++ '.' :: fs⟩) =
      (digitsVal ds : ℚ) + (digitsVal fs : ℚ) / 10 ^ fs.length) ∧
    (ds.length < 13 → epoch (.str ⟨ds⟩) = (digitsVal ds : Int)) ∧
    (13 ≤ ds.length → ds.length ≤ 15 →
      epoch (.str ⟨ds⟩) = (digitsVal ds : Int) / 1000) ∧
    epoch (.str ⟨'+' :: ds⟩) = 0 ∧
    epoch (.str ⟨'-' :: ds⟩) = 0 := by
  have hmem : ∀ c ∈ ds, c.isDigit = true := List.all_eq_true.mp hdig
  have hstrip : stripChars ds = ds :=
    stripChars_eq_self ds (fun c hc => digit_not_ws c (hmem c hc))
  have hstripP : stripChars ('+' :: ds) = '+' :: ds :=
    stripChars_sign_digits '+' (by decide) ds hmem
  have hstripM : stripChars ('-' :: ds) = '-' :: ds :=
    stripChars_sign_digits '-' (by decide) ds hmem
  have hisdig : isDigits ds = true := isDigits_of ds hne hmem
  refine ⟨?_, ?_, ?_, ?_, ?_, ?_, ?_, ?_, ?_, ?_⟩
  · rw [i_str]
    dsimp only
    rw [hstrip]
    cases ds with
    | nil => exact absurd rfl hne
    | cons c₀ tl =>
      simp [List.head?_cons, (digit_ne c₀ (hmem c₀ (by simp))).1,
        parseIntChars_digits _ hne hmem]
  · rw [i_str]
    dsimp only
    rw [hstripP]
    simp [parseIntChars_digits _ hne hmem]
  · rw [i_str]
    dsimp only
    rw [hstripM]
    simp [parseIntChars_neg_digits _ hne hmem]
  · rw [D_str]
    dsimp only
    rw [hstrip, filter_keep_all ds (fun c hc => digit_ne_underscore c (hmem c hc)),
      parseDecChars_digits _ hne hmem]
    rfl
  · rw [D_str]
    dsimp only
    rw [hstripM, filter_keep_all ('-' :: ds) (fun c hc => by
        rcases List.mem_cons.mp hc with rfl | h'
        · decide
        · exact digit_ne_underscore c (hmem c h')),
      parseDecChars_neg_digits _ hne hmem]
    rfl
  · intro hfne
    have hfmem : ∀ c ∈ fs, c.isDigit = true := List.all_eq_true.mp hfs
    rw [D_str]
    dsimp only
    have hstrip2 : stripChars (ds ++ '.' :: fs) = ds ++ '.' :: fs := by
      refine stripChars_eq_self _ ?_
      intro c hc
      rcases List.mem_append.mp hc with h' | h'
      · exact digit_not_ws c (hmem c h')
      · rcases List.mem_cons.mp h' with rfl | h''
        · decide
        · exact digit_not_ws c (hfmem c h'')
    rw [hstrip2, filter_keep_all (ds ++ '.' :: fs) (fun c hc => by
        rcases List.mem_append.mp hc with h' | h'
        · exact digit_ne_underscore c (hmem c h')
        · rcases List.mem_cons.mp h' with rfl | h''
          · decide
          · exact digit_ne_underscore c (hfmem c h'')),
      parseDecChars_point ds fs hne hmem hfmem]
    rfl
  · intro hlen
    rw [epoch_str]
    dsimp only
    rw [hstrip, if_pos hisdig, if_neg (by omega)]
  · intro hlen _
    rw [epoch_str]
    dsimp only
    rw [hstrip, if_pos hisdig, if_pos hlen]
  · rw [epoch_str]
    dsimp only
    rw [hstripP, if_neg (by rw [isDigits_sign_false '+' (by decide) ds]; exact Bool.false_ne_true),
      isoEpochChars_sign_digits '+' (by decide) (by decide) ds hmem]
  · rw [epoch_str]
    dsimp only
    rw [hstripM, if_neg (by rw [isDigits_sign_false '-' (by decide) ds]; exact Bool.false_ne_true),
      isoEpochChars_sign_digits '-' (by decide) (by decide) ds hmem]

theorem capAt_zero (maxPages : ℕ) : capAt maxPages 0 = false := by
  rcases maxPages with _ | m
  · rfl
  · simp [capAt]

theorem range_map_flatten_shift (f : ℕ → List PyVal) (page c : ℕ) :
    f page ++ ((List.range c).map (fun m => f (page + 1 + m))).flatten =
      ((List.range (c + 1)).map (fun m => f (page + m))).flatten := by
  have hfun : (fun m => f (page + 1 + m)) = ((fun m => f (page + m)) ∘ Nat.succ) := by
    funext m
    show f (page + 1 + m) = f (page + (m + 1))
    rw [show page + 1 + m = page + (m + 1) by omega]
  rw [List.range_succ_eq_map, List.map_cons, List.map_map, List.flatten_cons, hfun]
  rfl

/-- The pagination loop, from `page` on, with enough fuel: if the first `k`
pages all continue (truthy token, nonempty items, cap not reached) and page
`page+k` stops, the result is the concatenation of the items of pages
`page .. page+k` — excluding page `page+k` itself exactly when the stop is
the max-pages cap (checked before fetching). -/
theorem fetchAllGo_spec (pg : ℕ → PyVal) (maxPages : ℕ) :
    ∀ (k page fuel : ℕ), k < fuel →
    (∀ m, m < k → capAt maxPages (page + m) = false ∧ pageContinues (pg (page + m)) = true) →
    (capAt maxPages (page + k) = true ∨ pageContinues (pg (page + k)) = false) →
    fetchAllGo (fun p => some (pg p)) maxPages fuel page =
      .ok (((List.range (if capAt maxPages (page + k) then k else k + 1)).map
        (fun m => (extract_items_and_token (pg (page + m))).1)).flatten) := by
  intro k
  induction k with
  | zero =>
    intro page fuel hfuel _ hstop
    obtain ⟨f, rfl⟩ : ∃ f, fuel = f + 1 := ⟨fuel - 1, by omega⟩
    rw [fetchAllGo]
    rcases hcap : capAt maxPages (page + 0) with _ | _
    · rw [if_neg (by rw [show page = page + 0 by omega, hcap]; exact Bool.false_ne_true)]
      dsimp only
      have hc : pageContinues (pg page) = false := by
        rcases hstop with h | h
        · rw [hcap] at h; exact absurd h Bool.false_ne_true
        · simpa using h
      rw [if_neg (by rw [hc]; exact Bool.false_ne_true)]
      simp [List.range_succ]
    · rw [if_pos (by rw [show page = page + 0 by omega, hcap])]
      simp [hcap]
  | succ k ih =>
    intro page fuel hfuel hcont hstop
    obtain ⟨f, rfl⟩ : ∃ f, fuel = f + 1 := ⟨fuel - 1, by omega⟩
    have h0 := hcont 0 (by omega)
    rw [fetchAllGo]
    rw [if_neg (by rw [show page = page + 0 by omega, h0.1]; exact Bool.false_ne_true)]
    dsimp only
    rw [if_pos (by rw [show pg page = pg (page + 0) by rw [Nat.add_zero], h0.2])]
    have hrec := ih (page + 1) f (by omega)
      (fun m hm => by
        have := hcont (m + 1) (by omega)
        rwa [show page + (m + 1) = page + 1 + m by omega] at this)
      (by rwa [show page + 1 + k = page + (k + 1) by omega])
    rw [hrec]
    dsimp only
    rw [show page + 1 + k = page + (k + 1) by omega]
    rcases hcap : capAt maxPages (page + (k + 1)) with _ | _
    · simp only [Bool.false_eq_true, if_false]
      exact congrArg Except.ok
        (range_map_flatten_shift (fun x => (extract_items_and_token (pg x)).1) page (k + 1))
    · simp only [eq_self_iff_true, if_true]
      exact congrArg Except.ok
        (range_map_flatten_shift (fun x => (extract_items_and_token (pg x)).1) page k)

/-- C9: pagination stops exactly at the first page whose continuation token
is absent/empty or whose item list is empty, or when the max-pages cap is
reached; a non-empty page arriving with an empty token is still included in
the result and is the last page fetched (the cap excludes the capped page
itself, which is never fetched). -/
theorem C9_pagination_termination (pg : ℕ → PyVal) (maxPages k fuel : ℕ)
    (hfuel : k < fuel)
    (hcont : ∀ m, m < k → capAt maxPages m = false ∧ pageContinues (pg m) = true)
    (hstop : capAt maxPages k = true ∨ pageContinues (pg k) = false) :
    fetchAllGo (fun p => some (pg p)) maxPages fuel 0 =
      .ok (((List.range (if capAt maxPages k then k else k + 1)).map
        (fun m => (extract_items_and_token (pg m)).1)).flatten) := by
  have h := fetchAllGo_spec pg maxPages k 0 fuel hfuel
    (fun m hm => by simpa using hcont m hm) (by simpa using hstop)
  simpa using h

/-- C8: exhausting all 5 attempts of one page fetch aborts the whole run with
exit status 1; exhausting all 4 attempts of one detail fetch merely yields an
absent detail, which drops exactly the items bearing that hash from
classification while the rest of the run continues; an HTTP 404 returns the
definitive absent result after the one attempt, consuming no retries. -/
theorem C8_retry_exhaustion :
    (∀ (att : ℕ → ℕ → PageAttempt) (maxPages fuel : ℕ), 1 ≤ fuel →
      (∀ m, m < 5 → pageAttemptResult (att 0 m) = none) →
      fetch_all_txs att maxPages fuel = .error 1) ∧
    (∀ att : ℕ → DetailAttempt,
      (∀ m, m < 4 → att m = .serverErr ∨ att m = .exc) →
      fetch_tx_detail att = (none, 4)) ∧
    (∀ rest : List DetailAttempt, detailLoop (.notFound :: rest) = (none, 1)) ∧
    (∀ (addr : String) (details : List (String × PyVal)) (items : List PyVal)
      (h : String), lookupDict details h = some .null →
      build_records addr items details =
        build_records addr
          (items.filter (fun it => get_tx_hash_from_item it != some h)) details) := by
  refine ⟨?_, ?_, fun rest => rfl, ?_⟩
  · intro att maxPages fuel hfuel hfail
    obtain ⟨f, rfl⟩ : ∃ f, fuel = f + 1 := ⟨fuel - 1, by omega⟩
    have hnone : pageAttemptLoop ((List.range 5).map (att 0)) = none := by
      rw [pageAttemptLoop, List.findSome?_eq_none]
      intro x hx
      rw [List.mem_map] at hx
      obtain ⟨m, hm, rfl⟩ := hx
      exact hfail m (by simpa using List.mem_range.mp hm)
    rw [fetch_all_txs, fetchAllGo,
      if_neg (by rw [capAt_zero]; exact Bool.false_ne_true)]
    rw [hnone]
  · intro att h
    have h0 := h 0 (by omega)
    have h1 := h 1 (by omega)
    have h2 := h 2 (by omega)
    have h3 := h 3 (by omega)
    show detailLoop ((List.range 4).map att) = (none, 4)
    have hr : (List.range 4).map att = [att 0, att 1, att 2, att 3] := rfl
    rw [hr]
    rcases h0 with h0 | h0 <;> rcases h1 with h1 | h1 <;> rcases h2 with h2 | h2 <;>
      rcases h3 with h3 | h3 <;> rw [h0, h1, h2, h3] <;> rfl
  · intro addr details items h hnull
    induction items with
    | nil => rfl
    | cons it its ih =>
      by_cases hit : get_tx_hash_from_item it = some h
      · have hskip : processItem (lowerStr addr) details it = none := by
          unfold processItem
          rw [hit]
          dsimp only
          rw [hnull]
        have hfilter : ((it :: its).filter
            (fun it => get_tx_hash_from_item it != some h)) =
            its.filter (fun it => get_tx_hash_from_item it != some h) := by
          rw [List.filter_cons, if_neg (by simp [hit])]
        rw [hfilter, build_records, List.filterMap_cons, hskip]
        exact ih
      · have hfilter : ((it :: its).filter
            (fun it => get_tx_hash_from_item it != some h)) =
            it :: its.filter (fun it => get_tx_hash_from_item it != some h) := by
          rw [List.filter_cons, if_pos (by simp [bne_iff_ne, hit])]
        rw [hfilter, build_records, build_records, List.filterMap_cons,
          List.filterMap_cons]
        have ih' : its.filterMap (processItem (lowerStr addr) details) =
            (its.filter (fun it => get_tx_hash_from_item it != some h)).filterMap
              (processItem (lowerStr addr) details) := ih
        cases processItem (lowerStr addr) details it
        · exact ih'
        · rw [ih']

/-! ### Witnesses -/

theorem C2_calibration_witness :
    start_balance [recIn1] (some 5) = 5 - netDelta [recIn1] ∧
    ((reconstruct_balance [recIn1] (some 5)).1.map TxRecord.balance).getLast? =
      some (some 5) :=
  C2_calibration [recIn1] 5 (by decide) (by decide)

theorem C3_classification_witness :
    ((classifyDirDelta (lowerStr "0xAAA") (lowerStr "0xAAA") (lowerStr "0xBBB") 1 1 1).1 = "out" ∨
     (classifyDirDelta (lowerStr "0xAAA") (lowerStr "0xAAA") (lowerStr "0xBBB") 1 1 1).1 = "in" ∨
     (classifyDirDelta (lowerStr "0xAAA") (lowerStr "0xAAA") (lowerStr "0xBBB") 1 1 1).1 = "self" ∨
     (classifyDirDelta (lowerStr "0xAAA") (lowerStr "0xAAA") (lowerStr "0xBBB") 1 1 1).1 = "other") ∧
    ((lowerStr "0xAAA" = lowerStr "0xAAA" ∧ lowerStr "0xBBB" ≠ lowerStr "0xAAA") ↔
      (classifyDirDelta (lowerStr "0xAAA") (lowerStr "0xAAA") (lowerStr "0xBBB") 1 1 1).1 = "out") ∧
    ((lowerStr "0xBBB" = lowerStr "0xAAA" ∧ lowerStr "0xAAA" ≠ lowerStr "0xAAA") ↔
      (classifyDirDelta (lowerStr "0xAAA") (lowerStr "0xAAA") (lowerStr "0xBBB") 1 1 1).1 = "in") ∧
    ((lowerStr "0xBBB" = lowerStr "0xAAA" ∧ lowerStr "0xAAA" = lowerStr "0xAAA") ↔
      (classifyDirDelta (lowerStr "0xAAA") (lowerStr "0xAAA") (lowerStr "0xBBB") 1 1 1).1 = "self") ∧
    ((¬(lowerStr "0xAAA" = lowerStr "0xAAA" ∧ lowerStr "0xBBB" ≠ lowerStr "0xAAA") ∧
      ¬(lowerStr "0xBBB" = lowerStr "0xAAA" ∧ lowerStr "0xAAA" ≠ lowerStr "0xAAA") ∧
      ¬(lowerStr "0xBBB" = lowerStr "0xAAA" ∧ lowerStr "0xAAA" = lowerStr "0xAAA")) ↔
      (classifyDirDelta (lowerStr "0xAAA") (lowerStr "0xAAA") (lowerStr "0xBBB") 1 1 1).1 = "other") ∧
    ((classifyDirDelta (lowerStr "0xAAA") (lowerStr "0xAAA") (lowerStr "0xBBB") 1 1 1).1 = "out" →
      (classifyDirDelta (lowerStr "0xAAA") (lowerStr "0xAAA") (lowerStr "0xBBB") 1 1 1).2 = -(1 + 1 + 1) ∧
      (classifyDirDelta (lowerStr "0xAAA") (lowerStr "0xAAA") (lowerStr "0xBBB") 1 1 1).2 ≤ 0) ∧
    ((classifyDirDelta (lowerStr "0xAAA") (lowerStr "0xAAA") (lowerStr "0xBBB") 1 1 1).1 = "in" →
      (classifyDirDelta (lowerStr "0xAAA") (lowerStr "0xAAA") (lowerStr "0xBBB") 1 1 1).2 = 1 ∧
      0 ≤ (classifyDirDelta (lowerStr "0xAAA") (lowerStr "0xAAA") (lowerStr "0xBBB") 1 1 1).2) ∧
    ((classifyDirDelta (lowerStr "0xAAA") (lowerStr "0xAAA") (lowerStr "0xBBB") 1 1 1).1 = "self" →
      (classifyDirDelta (lowerStr "0xAAA") (lowerStr "0xAAA") (lowerStr "0xBBB") 1 1 1).2 = 0) ∧
    ((classifyDirDelta (lowerStr "0xAAA") (lowerStr "0xAAA") (lowerStr "0xBBB") 1 1 1).1 = "other" →
      (classifyDirDelta (lowerStr "0xAAA") (lowerStr "0xAAA") (lowerStr "0xBBB") 1 1 1).2 = 0) :=
  C3_classification "0xAAA" "0xAAA" "0xBBB" 1 1 1 zero_le_one zero_le_one zero_le_one

theorem C5_signed_numeric_strings_witness :
    i (.str ⟨['4', '2']⟩) 7 = (digitsVal ['4', '2'] : Int) ∧
    i (.str ⟨'+' :: ['4', '2']⟩) 7 = (digitsVal ['4', '2'] : Int) ∧
    i (.str ⟨'-' :: ['4', '2']⟩) 7 = -(digitsVal ['4', '2'] : Int) ∧
    D (.str ⟨['4', '2']⟩) = (digitsVal ['4', '2'] : ℚ) ∧
    D (.str ⟨'-' :: ['4', '2']⟩) = -(digitsVal ['4', '2'] : ℚ) ∧
    (['5'] ≠ ([] : List Char) → D (.str ⟨['4', '2'] ++ '.' :: ['5']⟩) =
      (digitsVal ['4', '2'] : ℚ) + (digitsVal ['5'] : ℚ) / 10 ^ (['5'] : List Char).length) ∧
    ((['4', '2'] : List Char).length < 13 →
      epoch (.str ⟨['4', '2']⟩) = (digitsVal ['4', '2'] : Int)) ∧
    (13 ≤ (['4', '2'] : List Char).length → (['4', '2'] : List Char).length ≤ 15 →
      epoch (.str ⟨['4', '2']⟩) = (digitsVal ['4', '2'] : Int) / 1000) ∧
    epoch (.str ⟨'+' :: ['4', '2']⟩) = 0 ∧
    epoch (.str ⟨'-' :: ['4', '2']⟩) = 0 :=
  C5_signed_numeric_strings ['4', '2'] ['5'] 7 (by decide) (by decide) (by decide)

theorem C9_pagination_termination_witness :
    fetchAllGo (fun _ => some pageOnly) 0 2 0 =
      .ok [PyVal.obj [("hash", PyVal.str "h")]] :=
  C9_pagination_termination (fun _ => pageOnly) 0 0 2 (by omega)
    (fun m hm => absurd hm (by omega)) (Or.inr (by decide))

end IdenaTimeline
